import Mathlib

/-!
A shallow embedding of the sudoers lexical-analysis and file-inclusion
subsystem (plugins/sudoers: the flex lexer and its include-stack support
code).  Bytes are modelled as `Nat` (ASCII codes), C strings as `List Nat`
without the terminating NUL.  External collaborators that the lexer calls
but does not implement (secure path checks, file opening, directory
reading, the host name) are abstracted as an environment record, matching
the "consumed collaborator interface" of the code.
-/

/-- ASCII code of the newline character. -/
def nlB : Nat := 10

/-- ASCII code of the carriage return character. -/
def crB : Nat := 13

/-- ASCII code of the double quote character. -/
def dqB : Nat := 34

/-- ASCII code of the backslash character. -/
def bsB : Nat := 92

/-- `isblank(3)`: space or horizontal tab. -/
def isBlankB (c : Nat) : Bool := c == 32 || c == 9

/-- `isxdigit(3)` on ASCII: 0-9, A-F, a-f. -/
def isXdigitB (c : Nat) : Bool :=
  (48 ≤ c && c ≤ 57) || (65 ≤ c && c ≤ 70) || (97 ≤ c && c ≤ 102)

/-- A character of the flex class `[A-Za-z0-9+/=]` (the base64 rule). -/
def isB64B (c : Nat) : Bool :=
  (65 ≤ c && c ≤ 90) || (97 ≤ c && c ≤ 122) || (48 ≤ c && c ≤ 57) ||
  c == 43 || c == 47 || c == 61

/-- `strcmp(3)` restricted to its sign, on NUL-free byte strings: the
terminating NUL of the shorter string compares below any byte. -/
def strcmp : List Nat → List Nat → Int
  | [], [] => 0
  | [], _ :: _ => -1
  | _ :: _, [] => 1
  | a :: as, b :: bs => if a < b then -1 else if b < a then 1 else strcmp as bs

/-- The refill step of `sudoers_input`: `getdelim` has returned the
nonempty byte sequence `line` (one logical line, normally ending in a
newline, except possibly at end of file).  The code truncates the line at
the first embedded NUL, substituting a newline, and appends a trailing
newline when the line lacks one. -/
def sudoersRefill (line : List Nat) : List Nat :=
  let line1 := if line.contains 0 then line.takeWhile (· ≠ 0) ++ [nlB] else line
  if line1.getLast? = some nlB then line1 else line1 ++ [nlB]

/-- The scanning loop of `expand_include`: walk the path once, recording
whether a `%h` escape occurs and the total length budget (`len` starts at
the path length and grows by `strlen(user_shost)` for each `%h`).
Returns (subst flag, number of bytes added to the budget). -/
def scanPH (hlen : Nat) : List Nat → Bool × Nat
  | [] => (false, 0)
  | [_] => (false, 0)
  | c :: d :: rest =>
    if c = 37 ∧ d = 104 then
      let r := scanPH hlen rest
      (true, r.2 + hlen)
    else
      let r := scanPH hlen (d :: rest)
      r

/-- The substitution loop of `expand_include`: copy the path, replacing
each `%h` by the short host name, tracking the remaining length budget
exactly as the C code does (`strlcpy` bound check, `len < 1` check); a
budget violation is the `oflow` error path, returning `none`. -/
def substPH (shost : List Nat) : List Nat → Nat → Option (List Nat)
  | [], _ => some []
  | [c], len =>
    if len < 1 then none else some [c]
  | c :: d :: rest, len =>
    if c = 37 ∧ d = 104 then
      if shost.length ≥ len + 1 then none
      else (substPH shost rest (len - shost.length)).map (shost ++ ·)
    else
      if len < 1 then none
      else (substPH shost (d :: rest) (len - 1)).map (c :: ·)

/-- The directory part (through the final slash) of the current sudoers
path, used by `expand_include` to resolve relative include paths:
`dirlen = strrchr(sudoers, slash) - sudoers + 1`, or 0 when there is no
slash. -/
def dirPart (sudoersPath : List Nat) : List Nat :=
  match (sudoersPath.reverse.takeWhile (· ≠ 47)).length with
  | n => sudoersPath.take (sudoersPath.length - n)

/-- `expand_include`: strip a surrounding pair of double quotes, reject an
empty path, prepend the sudoers directory for relative paths, and expand
embedded `%h` escapes to the short host name.  Returns `none` on the
error paths (empty path, length-budget overflow). -/
def expand_include (sudoersPath shost opath : List Nat) : Option (List Nat) :=
  let stripped :=
    if opath.length > 1 ∧ opath.head? = some dqB ∧ opath.getLast? = some dqB then
      (opath.drop 1).take (opath.length - 2)
    else opath
  if stripped = [] then none
  else
    let dir := if stripped.head? ≠ some 47 then dirPart sudoersPath else []
    let scan := scanPH shost.length stripped
    if scan.1 then
      (substPH shost stripped (stripped.length + scan.2)).map (dir ++ ·)
    else
      some (dir ++ stripped)

/-- Return status of `sudo_secure_dir` (the secure path check the include
code calls; one of the `SUDO_PATH_*` constants). -/
inductive SecureStatus
  | secure
  | missing
  | badType
  | wrongOwner
  | worldWritable
  | groupWritable
  deriving DecidableEq

/-- Result of `opendir`/`readdir` on an include directory: missing
directory (`ENOENT`), another error, or the raw entry names in the order
the filesystem returns them. -/
inductive ReadDirRes
  | enoent
  | err
  | ok (names : List (List Nat))

/-- The external collaborators of the include machinery: the short host
name, the `sudoers_warnings` flag, the secure-directory check, directory
reading, the regular-file test, and `open_sudoers` (whether a path opens,
and the keep-open flag it reports). -/
structure IncEnv where
  shost : List Nat
  warningsOn : Bool
  secureDir : List Nat → SecureStatus
  readDir : List Nat → ReadDirRes
  isReg : List Nat → Bool
  openOk : List Nat → Bool
  keepOpenOf : List Nat → Bool

/-- One slot of the include stack (`struct include_stack`): the saved
path, line buffer, line number, keep-open flag, and the pending
directory-entry list (`more`). -/
structure IncFrame where
  path : List Nat
  line : List Nat
  lineno : Nat
  keepopen : Bool
  more : List (List Nat)
  deriving DecidableEq

/-- The mutable lexer globals touched by `push_include`/`pop_include`:
`idepth`, `istacksize`, `istack`, `sudoers`, `sudolineno`, `sudolinebuf`,
`keepopen`.  The stack is modelled as the list of its `idepth` live
slots (cells of the C array at or beyond `idepth` are never read). -/
structure LexStackSt where
  idepth : Nat
  istacksize : Nat
  istack : List IncFrame
  sudoers : List Nat
  sudolineno : Nat
  sudolinebuf : List Nat
  keepopen : Bool
  deriving DecidableEq

/-- Result of a `push_include` call: the returned boolean, the updated
lexer globals, and the warning messages printed during the call. -/
structure PushOut where
  ok : Bool
  st : LexStackSt
  warned : List String
  deriving DecidableEq

/-- The file filter of `read_dir_files`: ignore names that are empty, end
in a tilde, or contain a dot. -/
def dirEntryOk (name : List Nat) : Bool :=
  !name.isEmpty && !(name.getLast? == some 126) && !(name.contains 46)

/-- `read_dir_files`: list the directory and keep the full paths of the
regular files whose names pass `dirEntryOk`, in readdir order.  `ENOENT`
yields an empty listing (count 0); any other directory error is the
`-1` failure (`none`). -/
def read_dir_files (env : IncEnv) (dirpath : List Nat) : Option (List (List Nat)) :=
  match env.readDir dirpath with
  | ReadDirRes.enoent => some []
  | ReadDirRes.err => none
  | ReadDirRes.ok names =>
      some (names.filterMap fun name =>
        if dirEntryOk name then
          let full := dirpath ++ 47 :: name
          if env.isReg full then some full else none
        else none)

/-- `pl_compare` sorts two paths in reverse order: `strcmp(p2, p1)`. -/
def descLe (a b : List Nat) : Prop := strcmp b a ≤ 0

/-- Ascending `strcmp` order on paths. -/
def ascLe (a b : List Nat) : Prop := strcmp a b ≤ 0

instance : DecidableRel descLe := fun a b =>
  inferInstanceAs (Decidable (strcmp b a ≤ 0))

instance : DecidableRel ascLe := fun a b =>
  inferInstanceAs (Decidable (strcmp a b ≤ 0))

/-- `switch_dir`: sort the matching files of the directory in descending
(`pl_compare`) order, then insert them one at a time at the head of the
frame's pending list, so the resulting list is the reverse of the
descending array.  `none` mirrors the `-1` error return. -/
def switch_dir (env : IncEnv) (dirpath : List Nat) : Option (List (List Nat)) :=
  (read_dir_files env dirpath).map fun files =>
    (List.insertionSort descLe files).foldl (fun l p => p :: l) []

/-- The open loop of the `isdir` branch of `push_include`: pop pending
entries until one opens, returning the opened path and the remaining
entries, or `none` when no file could be opened. -/
def openLoop (env : IncEnv) : List (List Nat) → Option (List Nat × List (List Nat))
  | [] => none
  | p :: rest => if env.openOk p then some (p, rest) else openLoop env rest

/-- The final block of `push_include`: save the current path, line
buffer, line number and keep-open flag into a new stack slot (whose
`more` field holds any remaining directory entries), bump `idepth`,
reset the line number and line buffer, and make `newpath` current.
`keepopen` was just written by the successful `open_sudoers` call. -/
def pushFrame (env : IncEnv) (st : LexStackSt) (newpath : List Nat)
    (more : List (List Nat)) : PushOut :=
  let keep := env.keepOpenOf newpath
  ⟨true,
    { idepth := st.idepth + 1
      istacksize := st.istacksize
      istack := st.istack ++ [⟨st.sudoers, st.sudolinebuf, st.sudolineno, keep, more⟩]
      sudoers := newpath
      sudolineno := 1
      sudolinebuf := []
      keepopen := keep },
    []⟩

/-- The warnings printed for a directory that fails the security check,
emitted only when `sudoers_warnings` is set; a missing directory hits
the silent `default` case of the switch. -/
def insecureWarn (env : IncEnv) (status : SecureStatus) : List String :=
  if env.warningsOn then
    match status with
    | SecureStatus.badType => ["not a directory"]
    | SecureStatus.wrongOwner => ["wrong owner"]
    | SecureStatus.worldWritable => ["world writable"]
    | SecureStatus.groupWritable => ["group writable"]
    | _ => []
  else []

/-- `push_include`: expand the path; grow the stack when `idepth` has
reached `istacksize`, failing with "too many levels of includes" when
`idepth` additionally exceeds `MAX_SUDOERS_DEPTH` (128); for a directory,
run the security check (an insecure or missing directory is skipped with
success), scan and sort the directory, and open the first openable entry;
for a plain file, failure to open is a parse error; finally push the old
state and switch to the new source. -/
def push_include (env : IncEnv) (st : LexStackSt) (opath : List Nat)
    (isdir : Bool) : PushOut :=
  match expand_include st.sudoers env.shost opath with
  | none => ⟨false, st, []⟩
  | some path =>
    if st.idepth ≥ st.istacksize ∧ st.idepth > 128 then
      ⟨false, st, if env.warningsOn then ["too many levels of includes"] else []⟩
    else
      let st1 := if st.idepth ≥ st.istacksize then
        { st with istacksize := st.istacksize + 16 } else st
      if isdir then
        match env.secureDir path with
        | SecureStatus.secure =>
          match switch_dir env path with
          | none => ⟨false, st1, []⟩
          | some more =>
            if more.isEmpty then ⟨true, st1, []⟩
            else
              match openLoop env more with
              | none => ⟨true, st1, []⟩
              | some (newpath, rest) => pushFrame env st1 newpath rest
        | status => ⟨true, st1, insecureWarn env status⟩
      else
        if env.openOk path then pushFrame env st1 path []
        else ⟨false, st1, []⟩

/-- The include path used by the nesting scenario: the absolute path
`/a`. -/
def incPath : List Nat := [47, 97]

/-- An environment in which every open succeeds and every directory is
secure, with verbose warnings enabled. -/
def envAllOpen : IncEnv where
  shost := [104]
  warningsOn := true
  secureDir := fun _ => SecureStatus.secure
  readDir := fun _ => ReadDirRes.enoent
  isReg := fun _ => true
  openOk := fun _ => true
  keepOpenOf := fun _ => false

/-- The lexer globals right after `init_lexer`: empty stack, zero
capacity, line number 1, top-level source `/s`. -/
def initStackSt : LexStackSt :=
  ⟨0, 0, [], [47, 115], 1, [], false⟩

/-- One step of a pure nesting scenario: `@include /a` from the current
source; the step fails when `push_include` returns false. -/
def nestStep (env : IncEnv) (st : LexStackSt) : Option LexStackSt :=
  let out := push_include env st incPath false
  if out.ok then some out.st else none

/-- `n` nested include pushes from a freshly initialized lexer. -/
def nest (env : IncEnv) : Nat → Option LexStackSt
  | 0 => some initStackSt
  | n + 1 => (nest env n).bind (nestStep env)

/-- The environment of the C2 scenario: a group-writable include
directory, warnings disabled. -/
def envInsecure : IncEnv where
  shost := [104]
  warningsOn := false
  secureDir := fun _ => SecureStatus.groupWritable
  readDir := fun _ => ReadDirRes.enoent
  isReg := fun _ => true
  openOk := fun _ => true
  keepOpenOf := fun _ => false

/-- Readdir order `b, a` for the C3 witness directory `/d`. -/
def envDirBA : IncEnv where
  shost := [104]
  warningsOn := true
  secureDir := fun _ => SecureStatus.secure
  readDir := fun _ => ReadDirRes.ok [[98], [97]]
  isReg := fun _ => true
  openOk := fun _ => true
  keepOpenOf := fun _ => false

/-- Readdir order `a, b` for the C3 witness directory `/d`. -/
def envDirAB : IncEnv where
  shost := [104]
  warningsOn := true
  secureDir := fun _ => SecureStatus.secure
  readDir := fun _ => ReadDirRes.ok [[97], [98]]
  isReg := fun _ => true
  openOk := fun _ => true
  keepOpenOf := fun _ => false

/-- The lexer start conditions declared by the scanner. -/
inductive SCState
  | initial
  | gotdefs
  | startdefs
  | indefs
  | gotcmnd
  | gotregex
  | instr
  | wantdigest
  | gotinc
  | expectpath
  deriving DecidableEq

/-- The tokens the modelled rules can produce. -/
inductive Tok
  | newline
  | word (s : List Nat)
  | usergroup (s : List Nat)
  | netgroup (s : List Nat)
  | command
  | digest (s : List Nat)
  | includeTok
  | includedirTok
  | punct (c : Nat)
  | nomatch
  | error (msg : String)
  deriving DecidableEq

/-- Modelled from the spec: `sudo_digest_getlen` (lib/util, outside
src/) returns the digest byte length of the algorithm selected by the
digest keyword: SHA-224 = 28, SHA-256 = 32, SHA-384 = 48, SHA-512 = 64
bytes. -/
inductive DigestType
  | sha224
  | sha256
  | sha384
  | sha512
  deriving DecidableEq

/-- Modelled from the spec: the digest byte lengths of the four
supported algorithms. -/
def sudo_digest_getlen : DigestType → Nat
  | DigestType.sha224 => 28
  | DigestType.sha256 => 32
  | DigestType.sha384 => 48
  | DigestType.sha512 => 64

/-- Outcome of one WANTDIGEST rule action: the token returned (if any),
the number of input bytes consumed after any `yyless` adjustment, and
the next start condition. -/
structure DigOut where
  tok : Option Tok
  consumed : Nat
  state : SCState
  deriving DecidableEq

/-- The WANTDIGEST hex rule action on its matched run: return DIGEST
only when the run length is exactly twice the digest byte length;
otherwise switch to INITIAL and execute `sudoersless(sudoersleng)`,
which keeps the whole match consumed (pushes nothing back) and produces
no token. -/
def wantdigestHexAction (dt : DigestType) (run : List Nat) : DigOut :=
  if run.length = sudo_digest_getlen dt * 2 then
    ⟨some (Tok.digest run), run.length, SCState.initial⟩
  else
    ⟨none, run.length, SCState.initial⟩

/-- The expected base64 length for a run: padded when it ends in `=`
(`4 * ((digest_len + 2) / 3)`), unpadded otherwise
(`(4 * digest_len + 2) / 3`). -/
def b64ExpectedLen (dt : DigestType) (run : List Nat) : Nat :=
  if run.getLast? = some 61 then 4 * ((sudo_digest_getlen dt + 2) / 3)
  else (4 * sudo_digest_getlen dt + 2) / 3

/-- The WANTDIGEST base64 rule action on its matched run, analogous to
the hex rule. -/
def wantdigestB64Action (dt : DigestType) (run : List Nat) : DigOut :=
  if run.length = b64ExpectedLen dt run then
    ⟨some (Tok.digest run), run.length, SCState.initial⟩
  else
    ⟨none, run.length, SCState.initial⟩

/-- The WANTDIGEST dispatch on a maximal run of base64 characters that
is followed by a delimiter no active rule can extend across: both
WANTDIGEST rules match at the run; flex takes the longest match and, on
a tie, the earlier rule.  The hex rule (earlier in the file) matches the
full run exactly when every character is hexadecimal, and any non-hex
base64 character makes the base64 rule match strictly longer, so the
dispatch reduces to this test. -/
def wantdigestStep (dt : DigestType) (run : List Nat) : DigOut :=
  if run.all (fun c => isXdigitB c) then wantdigestHexAction dt run
  else wantdigestB64Action dt run

/-- The closing-quote action of the INSTR state: classify the
accumulated string (`sudoerslval.string`; `none` models the NULL left by
an immediately-closed empty string).  The previous-state check and the
leading-character tests mirror the C switch on `string[0]`,
`string[1]`, `string[2]`. -/
def endStrToken (prev : SCState) (s : Option (List Nat)) : Tok :=
  match s with
  | none => Tok.error "empty string"
  | some str =>
    if prev = SCState.initial ∨ prev = SCState.gotdefs then
      if str.head? = some 37 then
        if str.tail = [] ∨ str.tail = [58] then Tok.error "empty group"
        else Tok.usergroup str
      else if str.head? = some 43 then
        if str.tail = [] then Tok.error "empty netgroup"
        else Tok.netgroup str
      else Tok.word str
    else Tok.word str

/-- Modelled from the spec: `append` (toke_util.c, outside src/) extends
the accumulated string with the matched text (allocating it on first
use). -/
def appendLval (lval : Option (List Nat)) (txt : List Nat) : Option (List Nat) :=
  match lval with
  | none => some txt
  | some s => some (s ++ txt)

/-- Modelled from the spec: `fill_args` (toke_util.c, outside src/)
appends the given bytes to the accumulated command-argument text,
separating arguments with a single space when unconsumed whitespace
preceded (`addspace`). -/
def fill_args (args : Option (List Nat)) (txt : List Nat) (addspace : Bool) :
    Option (List Nat) :=
  match args with
  | none => some txt
  | some s => some (s ++ (if addspace then [32] else []) ++ txt)

/-- Length of the leading blank run. -/
def blanksLen (l : List Nat) : Nat := (l.takeWhile (fun c => isBlankB c)).length

/-- Match length, after an initial backslash, of `[[:blank:]]*\r?\n`
(no trailing blanks): `none` when the pattern cannot match there. -/
def contTrail2Len (l : List Nat) : Option Nat :=
  let b1 := blanksLen l
  let l1 := l.drop b1
  if l1.head? = some nlB then some (b1 + 1)
  else if l1.head? = some crB ∧ (l1.drop 1).head? = some nlB then some (b1 + 2)
  else none

/-- Match length of the `<*>` line-continuation pattern
`\\[[:blank:]]*\r?\n` at the start of the input (0 when it does not
match). -/
def mCont2Len (l : List Nat) : Nat :=
  if l.head? = some bsB then
    match contTrail2Len (l.drop 1) with
    | some n => 1 + n
    | none => 0
  else 0

/-- Match length of the INSTR line-continuation pattern
`\\[[:blank:]]*\r?\n[[:blank:]]*` (0 when it does not match): as
`mCont2Len` plus the greedy trailing blank run. -/
def mContLen (l : List Nat) : Nat :=
  if l.head? = some bsB then
    match contTrail2Len (l.drop 1) with
    | some n => 1 + n + blanksLen ((l.drop 1).drop n)
    | none => 0
  else 0

/-- Match length of a single-character pattern for the given
character. -/
def mCharLen (c : Nat) (l : List Nat) : Nat :=
  if l.head? = some c then 1 else 0

/-- Match length of the INSTR string-body pattern
`([^\"\r\n\\]|\\\")+`: a greedy run of ordinary characters and escaped
quotes. -/
def bodyLen : List Nat → Nat
  | [] => 0
  | c :: rest =>
    if c = dqB ∨ c = crB ∨ c = nlB then 0
    else if c = bsB then
      match rest with
      | d :: rest2 => if d = dqB then 2 + bodyLen rest2 else 0
      | [] => 0
    else 1 + bodyLen rest

/-- Match length of `<*>!+`. -/
def mBangLen (l : List Nat) : Nat := (l.takeWhile (fun c => c == 33)).length

/-- Match length of `<*>\r?\n`. -/
def mNlLen (l : List Nat) : Nat :=
  if l.head? = some nlB then 1
  else if l.head? = some crB ∧ (l.drop 1).head? = some nlB then 2
  else 0

/-- Match length of `<*>.` (any character other than a newline). -/
def mDotLen (l : List Nat) : Nat :=
  match l.head? with
  | some c => if c = nlB then 0 else 1
  | none => 0

/-- Flex dispatch: given the (rule, match length) pairs in the order the
rules appear in the scanner, pick the rule with the longest match,
breaking ties in favour of the earliest rule; `none` when nothing
matches. -/
def pickRule {ρ : Type} (rs : List (ρ × Nat)) : Option (ρ × Nat) :=
  let m := (rs.map (fun r => r.2)).foldl Nat.max 0
  if m = 0 then none else rs.find? (fun r => r.2 == m)

/-- The rules active in the exclusive INSTR start condition, in file
order: the four INSTR rules, then the `<*>` rules. -/
inductive InstrRule
  | cont
  | quote
  | backslash
  | body
  | bang
  | nl
  | blank
  | cont2
  | dot
  deriving DecidableEq

/-- The (rule, match length) table of the INSTR state at the given
input. -/
def instrRules (l : List Nat) : List (InstrRule × Nat) :=
  [(InstrRule.cont, mContLen l), (InstrRule.quote, mCharLen dqB l),
   (InstrRule.backslash, mCharLen bsB l), (InstrRule.body, bodyLen l),
   (InstrRule.bang, mBangLen l), (InstrRule.nl, mNlLen l),
   (InstrRule.blank, blanksLen l), (InstrRule.cont2, mCont2Len l),
   (InstrRule.dot, mDotLen l)]

/-- Outcome of one INSTR scan step: token (if any), bytes consumed after
`yyless`, next start condition, the accumulated string, the line number
and the continuation flag. -/
structure InstrOut where
  tok : Option Tok
  consumed : Nat
  state : SCState
  lval : Option (List Nat)
  lineno : Nat
  continued : Bool
  deriving DecidableEq

/-- One scan step in the INSTR state: flex maximal-munch dispatch over
the active rules, followed by the matched rule's action.  `prev` is the
saved previous state, `lval` the accumulated string.  The `<*>\r?\n`
rule, taken in INSTR, frees the string, pushes the whole match back
(`sudoersless(0)`), switches to INITIAL and returns an ERROR. -/
def instrStep (prev : SCState) (lval : Option (List Nat)) (lineno : Nat)
    (continued : Bool) (input : List Nat) : InstrOut :=
  match pickRule (instrRules input) with
  | none => ⟨none, 0, SCState.instr, lval, lineno, continued⟩
  | some (r, len) =>
    let txt := input.take len
    match r with
    | InstrRule.cont =>
        ⟨none, len, SCState.instr, lval, lineno + 1, true⟩
    | InstrRule.quote =>
        ⟨some (endStrToken prev lval), len, prev, lval, lineno, continued⟩
    | InstrRule.backslash =>
        ⟨none, len, SCState.instr, appendLval lval txt, lineno, continued⟩
    | InstrRule.body =>
        ⟨none, len, SCState.instr, appendLval lval txt, lineno, continued⟩
    | InstrRule.bang =>
        if len % 2 = 1 then
          ⟨some (Tok.punct 33), len, SCState.instr, lval, lineno, continued⟩
        else
          ⟨none, len, SCState.instr, lval, lineno, continued⟩
    | InstrRule.nl =>
        ⟨some (Tok.error "unexpected line break in string"), 0,
          SCState.initial, none, lineno, continued⟩
    | InstrRule.blank =>
        ⟨none, len, SCState.instr, lval, lineno, continued⟩
    | InstrRule.cont2 =>
        ⟨none, len, SCState.instr, lval, lineno + 1, true⟩
    | InstrRule.dot =>
        ⟨some Tok.nomatch, len, SCState.instr, lval, lineno, continued⟩

/-- The rules active in the exclusive GOTCMND start condition, in file
order: the four GOTCMND rules, then the `<*>` rules. -/
inductive CmndRule
  | globEsc
  | specEsc
  | term
  | arg
  | bang
  | nl
  | blank
  | cont2
  | dot
  deriving DecidableEq

/-- Character class of `\\[\*\?\[\]\!^]` (fnmatch glob metacharacters
that keep their backslash). -/
def isGlobMeta (c : Nat) : Bool :=
  c == 42 || c == 63 || c == 91 || c == 93 || c == 33 || c == 94

/-- Character class of `\\[:\\,= \t#]` (sudoers structural characters
whose backslash is stripped). -/
def isSpecEscChar (c : Nat) : Bool :=
  c == 58 || c == 92 || c == 44 || c == 61 || c == 32 || c == 9 || c == 35

/-- Character class of the argument terminator rule `[#:\,=\r\n]`. -/
def isCmndTerm (c : Nat) : Bool :=
  c == 35 || c == 58 || c == 44 || c == 61 || c == 13 || c == 10

/-- Character class of the argument-run pattern `[^#\\:, \t\r\n]+`
(note: `=` is NOT excluded). -/
def isArgChar (c : Nat) : Bool :=
  !(c == 35 || c == 92 || c == 58 || c == 44 || c == 32 || c == 9 ||
    c == 13 || c == 10)

/-- Match length of an escape rule: a backslash followed by a character
of the given class. -/
def mEscLen (cls : Nat → Bool) (l : List Nat) : Nat :=
  if l.head? = some bsB then
    match (l.drop 1).head? with
    | some d => if cls d then 2 else 0
    | none => 0
  else 0

/-- Match length of a one-character class rule. -/
def mClassLen (cls : Nat → Bool) (l : List Nat) : Nat :=
  match l.head? with
  | some c => if cls c then 1 else 0
  | none => 0

/-- Match length of the argument-run rule. -/
def mArgLen (l : List Nat) : Nat := (l.takeWhile isArgChar).length

/-- The (rule, match length) table of the GOTCMND state at the given
input. -/
def cmndRules (l : List Nat) : List (CmndRule × Nat) :=
  [(CmndRule.globEsc, mEscLen isGlobMeta l),
   (CmndRule.specEsc, mEscLen isSpecEscChar l),
   (CmndRule.term, mClassLen isCmndTerm l),
   (CmndRule.arg, mArgLen l),
   (CmndRule.bang, mBangLen l), (CmndRule.nl, mNlLen l),
   (CmndRule.blank, blanksLen l), (CmndRule.cont2, mCont2Len l),
   (CmndRule.dot, mDotLen l)]

/-- Outcome of one GOTCMND scan step: token (if any), bytes consumed
after `yyless`, next start condition, the accumulated command-argument
text, the whitespace flag, line number and continuation flag. -/
structure CmndOut where
  tok : Option Tok
  consumed : Nat
  state : SCState
  args : Option (List Nat)
  sawspace : Bool
  lineno : Nat
  continued : Bool
  deriving DecidableEq

/-- One scan step in the GOTCMND state: flex maximal-munch dispatch over
the active rules, followed by the matched rule's action.  A quoted glob
metacharacter is appended verbatim (both bytes); a quoted structural
character is appended without its backslash; a terminator pushes the
whole match back and returns COMMAND; an argument run is appended,
unless it is the first run and starts with `^`, which transfers to
GOTREGEX with the run pushed back. -/
def gotcmndStep (args : Option (List Nat)) (sawspace : Bool) (lineno : Nat)
    (continued : Bool) (input : List Nat) : CmndOut :=
  match pickRule (cmndRules input) with
  | none => ⟨none, 0, SCState.gotcmnd, args, sawspace, lineno, continued⟩
  | some (r, len) =>
    let txt := input.take len
    match r with
    | CmndRule.globEsc =>
        ⟨none, len, SCState.gotcmnd, fill_args args txt sawspace, false,
          lineno, continued⟩
    | CmndRule.specEsc =>
        ⟨none, len, SCState.gotcmnd, fill_args args (txt.drop 1) sawspace,
          false, lineno, continued⟩
    | CmndRule.term =>
        ⟨some Tok.command, 0, SCState.initial, args, sawspace, lineno,
          continued⟩
    | CmndRule.arg =>
        if args = none ∧ txt.head? = some 94 then
          ⟨none, 0, SCState.gotregex, args, sawspace, lineno, continued⟩
        else
          ⟨none, len, SCState.gotcmnd, fill_args args txt sawspace, false,
            lineno, continued⟩
    | CmndRule.bang =>
        if len % 2 = 1 then
          ⟨some (Tok.punct 33), len, SCState.gotcmnd, args, sawspace,
            lineno, continued⟩
        else
          ⟨none, len, SCState.gotcmnd, args, sawspace, lineno, continued⟩
    | CmndRule.nl =>
        ⟨some Tok.newline, len, SCState.initial, args, sawspace,
          lineno + 1, false⟩
    | CmndRule.blank =>
        ⟨none, len, SCState.gotcmnd, args, true, lineno, continued⟩
    | CmndRule.cont2 =>
        ⟨none, len, SCState.gotcmnd, args, true, lineno + 1, true⟩
    | CmndRule.dot =>
        ⟨some Tok.nomatch, len, SCState.gotcmnd, args, sawspace, lineno,
          continued⟩

/-- Length matched by a trailing `.*(\r\n|\n)?` from the start of the
input under maximal munch: everything up to and including the first
newline, or the whole input when it has no newline. -/
def toEolLen (l : List Nat) : Nat :=
  let pre := (l.takeWhile (fun c => c != nlB)).length
  if pre < l.length then pre + 1 else pre

/-- Length of the leading decimal-digit run. -/
def digitsLen (l : List Nat) : Nat :=
  (l.takeWhile (fun c => 48 ≤ c && c ≤ 57)).length

/-- Match length of the `{ID}` pattern `#-?[0-9]+` (a numeric uid/gid
word). -/
def idLen (l : List Nat) : Nat :=
  if l.head? = some 35 then
    let l1 := l.drop 1
    if l1.head? = some 45 then
      if digitsLen (l1.drop 1) = 0 then 0 else 2 + digitsLen (l1.drop 1)
    else
      if digitsLen l1 = 0 then 0 else 1 + digitsLen l1
  else 0

/-- Match length of the comment rule
`#(-[^\r\n0-9].*|[^\r\n0-9-].*)?(\r\n|\n)?` under maximal munch: when
the optional group can start (the character after `#`, or after `#-`,
is not a newline, carriage return or digit - and not `-` in the
second branch), the match runs through the end of the line; otherwise
only the `#` itself plus an immediately following line break. -/
def commentLen (l : List Nat) : Nat :=
  if l.head? = some 35 then
    let l1 := l.drop 1
    let groupOk : Bool :=
      match l1.head? with
      | none => false
      | some c =>
        if c = 45 then
          match (l1.drop 1).head? with
          | none => false
          | some d => !(d == crB || d == nlB || (48 ≤ d && d ≤ 57))
        else !(c == crB || c == nlB || (48 ≤ c && c ≤ 57) || c == 45)
    if groupOk then 1 + toEolLen l1 else 1 + mNlLen l1
  else 0

/-- The byte string `#include`. -/
def inclWord : List Nat := [35, 105, 110, 99, 108, 117, 100, 101]

/-- The byte string `#includedir`. -/
def incldirWord : List Nat := [35, 105, 110, 99, 108, 117, 100, 101, 100, 105, 114]

/-- Whether the input begins with a blank character. -/
def headIsBlank (l : List Nat) : Bool :=
  match l.head? with
  | some c => isBlankB c
  | none => false

/-- Match length of `^#include[[:blank:]]+.*(\r\n|\n)?`: only at the
beginning of a line, and only when at least one blank follows the
directive word. -/
def inclLen (bol : Bool) (l : List Nat) : Nat :=
  if bol ∧ l.take 8 = inclWord ∧ headIsBlank (l.drop 8) then
    toEolLen l
  else 0

/-- Match length of `^#includedir[[:blank:]]+.*(\r\n|\n)?`. -/
def incldirLen (bol : Bool) (l : List Nat) : Nat :=
  if bol ∧ l.take 11 = incldirWord ∧ headIsBlank (l.drop 11) then
    toEolLen l
  else 0

/-- The INITIAL-state rules that can match an input whose first
character is `#`, in file order.  Every other pattern of the INITIAL
start condition is inspected to exclude `#` as a first character
(`{WORD}` and `{ENVAR}` exclude `#`, keywords and `@include` begin with
letters or `@`, `{PATH}` begins with `/`, address patterns with
hex digits or digits, and so on), so on such inputs the dispatch among
these five rules is the full INITIAL dispatch. -/
inductive HashRule
  | incl
  | incldir
  | idWord
  | comment
  | dot
  deriving DecidableEq

/-- The (rule, match length) table of the INITIAL state at an input
beginning with `#`. -/
def hashRules (bol : Bool) (l : List Nat) : List (HashRule × Nat) :=
  [(HashRule.incl, inclLen bol l), (HashRule.incldir, incldirLen bol l),
   (HashRule.idWord, idLen l), (HashRule.comment, commentLen l),
   (HashRule.dot, mDotLen l)]

/-- Outcome of one INITIAL scan step at a `#`: token, bytes consumed
after `yyless`, next start condition, line number and continuation
flag. -/
structure InitOut where
  tok : Option Tok
  consumed : Nat
  state : SCState
  lineno : Nat
  continued : Bool
  deriving DecidableEq

/-- One INITIAL scan step on an input beginning with `#`: flex
maximal-munch dispatch, then the matched rule's action.  The include
directives consume only the directive word (`sudoersless`), switch to
GOTINC and return INCLUDE/INCLUDEDIR (or an "invalid line continuation"
error when a continuation was pending); the comment rule consumes to
end of line and returns a newline token (an I/O error is reported when
the line ends without a newline before end of file); the uid/gid word
rule returns WORD. -/
def initialHashStep (bol eof continued : Bool) (lineno : Nat)
    (input : List Nat) : InitOut :=
  match pickRule (hashRules bol input) with
  | none => ⟨none, 0, SCState.initial, lineno, continued⟩
  | some (r, len) =>
    match r with
    | HashRule.incl =>
        if continued then
          ⟨some (Tok.error "invalid line continuation"), len,
            SCState.initial, lineno, continued⟩
        else
          ⟨some Tok.includeTok, 8, SCState.gotinc, lineno, continued⟩
    | HashRule.incldir =>
        if continued then
          ⟨some (Tok.error "invalid line continuation"), len,
            SCState.initial, lineno, continued⟩
        else
          ⟨some Tok.includedirTok, 11, SCState.gotinc, lineno, continued⟩
    | HashRule.idWord =>
        ⟨some (Tok.word (input.take len)), len, SCState.initial, lineno,
          continued⟩
    | HashRule.comment =>
        if (input.take len).getLast? = some nlB then
          ⟨some Tok.newline, len, SCState.initial, lineno + 1, false⟩
        else if !eof then
          ⟨some (Tok.error "read error"), len, SCState.initial, lineno,
            continued⟩
        else
          ⟨some Tok.newline, len, SCState.initial, lineno, continued⟩
    | HashRule.dot =>
        ⟨some Tok.nomatch, len, SCState.initial, lineno, continued⟩

/-- Whether the input begins with a character of the argument-run
class. -/
def headIsArgChar (l : List Nat) : Bool :=
  match l.head? with
  | some c => isArgChar c
  | none => false

set_option maxRecDepth 100000

theorem strcmp_swap : ∀ a b : List Nat, strcmp b a = -strcmp a b
  | [], [] => by simp [strcmp]
  | [], _ :: _ => by simp [strcmp]
  | _ :: _, [] => by simp [strcmp]
  | a :: as, b :: bs => by
    simp only [strcmp]
    rcases Nat.lt_trichotomy a b with h | h | h
    · rw [if_neg (Nat.lt_asymm h), if_pos h, if_pos h]
      decide
    · subst h
      rw [if_neg (Nat.lt_irrefl a), if_neg (Nat.lt_irrefl a),
        if_neg (Nat.lt_irrefl a), if_neg (Nat.lt_irrefl a)]
      exact strcmp_swap as bs
    · rw [if_pos h, if_neg (Nat.lt_asymm h), if_pos h]

theorem strcmp_eq_zero : ∀ a b : List Nat, strcmp a b = 0 → a = b
  | [], [], _ => rfl
  | [], _ :: _, h => by simp [strcmp] at h
  | _ :: _, [], h => by simp [strcmp] at h
  | a :: as, b :: bs, h => by
    simp only [strcmp] at h
    rcases Nat.lt_trichotomy a b with hab | hab | hab
    · rw [if_pos hab] at h
      exact absurd h (by decide)
    · subst hab
      rw [if_neg (Nat.lt_irrefl a), if_neg (Nat.lt_irrefl a)] at h
      rw [strcmp_eq_zero as bs h]
    · rw [if_neg (Nat.lt_asymm hab), if_pos hab] at h
      exact absurd h (by decide)

theorem strcmp_cons_le (x y : Nat) (xs ys : List Nat) :
    strcmp (x :: xs) (y :: ys) ≤ 0 ↔ x < y ∨ (x = y ∧ strcmp xs ys ≤ 0) := by
  simp only [strcmp]
  rcases Nat.lt_trichotomy x y with h | h | h
  · rw [if_pos h]
    simp [h]
  · subst h
    rw [if_neg (Nat.lt_irrefl x), if_neg (Nat.lt_irrefl x)]
    simp
  · rw [if_neg (Nat.lt_asymm h), if_pos h]
    constructor
    · intro hc
      exact absurd hc (by decide)
    · rintro (hc | ⟨hc, _⟩)
      · exact absurd h (Nat.lt_asymm hc)
      · subst hc
        exact absurd h (Nat.lt_irrefl x)

theorem strcmp_le_trans : ∀ a b c : List Nat,
    strcmp a b ≤ 0 → strcmp b c ≤ 0 → strcmp a c ≤ 0
  | [], b, c, _, _ => by cases c <;> simp [strcmp]
  | _ :: _, [], _, h1, _ => by simp [strcmp] at h1
  | _ :: _, _ :: _, [], _, h2 => by simp [strcmp] at h2
  | a :: as, b :: bs, c :: cs, h1, h2 => by
    rw [strcmp_cons_le] at h1 h2 ⊢
    rcases h1 with h1 | ⟨h1e, h1r⟩
    · rcases h2 with h2 | ⟨h2e, h2r⟩
      · exact Or.inl (Nat.lt_trans h1 h2)
      · exact Or.inl (h2e ▸ h1)
    · rcases h2 with h2 | ⟨h2e, h2r⟩
      · exact Or.inl (h1e ▸ h2)
      · exact Or.inr ⟨h1e.trans h2e, strcmp_le_trans as bs cs h1r h2r⟩

theorem ascLe_total (a b : List Nat) : ascLe a b ∨ ascLe b a := by
  unfold ascLe
  rcases le_or_lt (strcmp a b) 0 with h | h
  · exact Or.inl h
  · right
    rw [strcmp_swap a b]
    omega

theorem ascLe_antisymm (a b : List Nat) (h1 : ascLe a b) (h2 : ascLe b a) :
    a = b := by
  unfold ascLe at h1 h2
  rw [strcmp_swap a b] at h2
  exact strcmp_eq_zero a b (by omega)

instance : IsTrans (List Nat) ascLe :=
  ⟨fun a b c => strcmp_le_trans a b c⟩

instance : IsTotal (List Nat) ascLe :=
  ⟨ascLe_total⟩

instance : IsAntisymm (List Nat) ascLe :=
  ⟨ascLe_antisymm⟩

instance : IsTrans (List Nat) descLe :=
  ⟨fun a b c h1 h2 => strcmp_le_trans c b a h2 h1⟩

instance : IsTotal (List Nat) descLe :=
  ⟨fun a b => (ascLe_total b a).imp id id⟩

instance : IsAntisymm (List Nat) descLe :=
  ⟨fun a b h1 h2 => (ascLe_antisymm b a h1 h2).symm⟩

theorem foldl_headInsert (l acc : List (List Nat)) :
    l.foldl (fun l p => p :: l) acc = l.reverse ++ acc := by
  induction l generalizing acc with
  | nil => rfl
  | cons x xs ih =>
    simp [List.foldl_cons, ih, List.reverse_cons, List.append_assoc]

/-- Reversing the `pl_compare`-descending sort of a file list gives the
ascending `strcmp` sort. -/
theorem revDescSort_eq_ascSort (l : List (List Nat)) :
    (List.insertionSort descLe l).reverse = List.insertionSort ascLe l := by
  apply List.eq_of_perm_of_sorted (r := ascLe)
  · exact ((List.reverse_perm _).trans (List.perm_insertionSort _ _)).trans
      (List.perm_insertionSort ascLe l).symm
  · have hs : List.Sorted descLe (List.insertionSort descLe l) :=
      List.sorted_insertionSort _ _
    exact (List.pairwise_reverse).mpr hs
  · exact List.sorted_insertionSort _ _

theorem bodyLen_cons_stop (c : Nat) (rest : List Nat)
    (h : c = dqB ∨ c = crB ∨ c = nlB) : bodyLen (c :: rest) = 0 := by
  rw [bodyLen.eq_def]
  dsimp only
  rw [if_pos h]

theorem bodyLen_bs (d : Nat) (rest : List Nat) :
    bodyLen (bsB :: d :: rest) = if d = dqB then 2 + bodyLen rest else 0 := by
  rw [bodyLen.eq_def]
  dsimp only
  rw [if_neg (by decide), if_pos rfl]

theorem toEolLen_cons (c : Nat) (t : List Nat) (h : ¬ c = nlB) :
    toEolLen (c :: t) = 1 + toEolLen t := by
  have hd : (c != nlB) = true := by simpa using h
  simp only [toEolLen, List.takeWhile_cons, hd, if_true, List.length_cons]
  by_cases hlt : (List.takeWhile (fun c => c != nlB) t).length < t.length
  · rw [if_pos (by omega), if_pos hlt]
    omega
  · rw [if_neg (by omega), if_neg hlt]
    omega

theorem toEolLen_pos (l : List Nat) (h : l ≠ []) : 1 ≤ toEolLen l := by
  cases l with
  | nil => exact absurd rfl h
  | cons c t =>
    by_cases hc : c = nlB
    · subst hc
      simp [toEolLen, List.takeWhile_cons]
    · rw [toEolLen_cons c t hc]
      omega

theorem take_toEolLen : ∀ l : List Nat, nlB ∈ l →
    l.take (toEolLen l) = l.takeWhile (fun c => c != nlB) ++ [nlB]
  | [], h => absurd h (List.not_mem_nil _)
  | c :: t, h => by
    by_cases hc : c = nlB
    · subst hc
      have h1 : toEolLen (nlB :: t) = 1 := by
        simp [toEolLen, List.takeWhile_cons]
      rw [h1]
      simp [List.takeWhile_cons]
    · have hnl : nlB ∈ t := by
        rcases List.mem_cons.mp h with h | h
        · exact absurd h.symm hc
        · exact h
      have hd : (c != nlB) = true := by simpa using hc
      rw [toEolLen_cons c t hc, Nat.add_comm, List.take_succ_cons,
        take_toEolLen t hnl, List.takeWhile_cons]
      simp [hd]

/-- C1 counterexample: nesting includes to depth 129 does NOT fail at the
129th push.  Starting from a freshly initialized lexer, with every file
opening successfully, 129 nested `@include /a` pushes all return true and
leave the include depth at 129: the depth check in `push_include` runs
only when the stack must grow (`idepth >= istacksize`), which under pure
nesting happens at depths 0, 16, ..., 128, 144, and at depth 128 the test
`idepth > MAX_SUDOERS_DEPTH` (128 > 128) is false. -/
theorem c1_counterexample :
    (nest envAllOpen 129).map (fun st => st.idepth) = some 129 := by decide

/-- C1 amended: `push_include` fails with "too many levels of includes"
exactly when the stack must grow (`idepth >= istacksize`) while `idepth`
exceeds `MAX_SUDOERS_DEPTH` (128); the failing call leaves the state
unchanged.  Because capacity grows 16 slots at a time, pure nesting from
a fresh lexer succeeds through depth 144 and the 145th push is the first
to fail, printing "too many levels of includes". -/
theorem c1_amended :
    (∀ st : LexStackSt,
      ((push_include envAllOpen st incPath false).ok = false ↔
        st.idepth ≥ st.istacksize ∧ st.idepth > 128) ∧
      (st.idepth ≥ st.istacksize ∧ st.idepth > 128 →
        push_include envAllOpen st incPath false =
          ⟨false, st, ["too many levels of includes"]⟩)) ∧
    (nest envAllOpen 144).map (fun st => st.idepth) = some 144 ∧
    nest envAllOpen 145 = none ∧
    (nest envAllOpen 144).map
        (fun st => (push_include envAllOpen st incPath false).warned) =
      some ["too many levels of includes"] := by
  refine ⟨fun st => ?_, by decide, by decide, by decide⟩
  have hexp : expand_include st.sudoers [104] incPath = some incPath := rfl
  by_cases hc : st.idepth ≥ st.istacksize ∧ st.idepth > 128
  · constructor
    · simp [push_include, hexp, hc, envAllOpen]
    · intro _
      simp [push_include, hexp, hc, envAllOpen]
  · constructor
    · simp [push_include, hexp, hc, envAllOpen, pushFrame]
    · intro h
      exact absurd h hc

/-- Witness for `c1_amended`: at a state of depth 130 with capacity 100,
a push fails with the "too many levels of includes" message. -/
theorem c1_amended_witness :
    push_include envAllOpen ⟨130, 100, [], [47, 115], 1, [], false⟩ incPath false =
      ⟨false, ⟨130, 100, [], [47, 115], 1, [], false⟩,
        ["too many levels of includes"]⟩ :=
  (c1_amended.1 ⟨130, 100, [], [47, 115], 1, [], false⟩).2 (by decide)

/-- C2: an `@includedir` whose target directory is missing or fails the
security check is skipped with success: `push_include` returns true, no
frame is pushed and the current source is untouched (so the directive
contributes no tokens and parsing continues in the parent file), and a
warning can be printed only when `sudoers_warnings` is enabled. -/
theorem c2_insecure_dir_skipped (env : IncEnv) (st : LexStackSt)
    (opath path : List Nat)
    (hexp : expand_include st.sudoers env.shost opath = some path)
    (hdepth : ¬ (st.idepth ≥ st.istacksize ∧ st.idepth > 128))
    (hsec : env.secureDir path ≠ SecureStatus.secure) :
    (push_include env st opath true).ok = true ∧
    (push_include env st opath true).st.idepth = st.idepth ∧
    (push_include env st opath true).st.istack = st.istack ∧
    (push_include env st opath true).st.sudoers = st.sudoers ∧
    (push_include env st opath true).st.sudolineno = st.sudolineno ∧
    (push_include env st opath true).st.sudolinebuf = st.sudolinebuf ∧
    ((push_include env st opath true).warned ≠ [] → env.warningsOn = true) ∧
    (env.warningsOn = false → (push_include env st opath true).warned = []) := by
  have hpush : push_include env st opath true =
      ⟨true,
        if st.idepth ≥ st.istacksize then
          { st with istacksize := st.istacksize + 16 } else st,
        insecureWarn env (env.secureDir path)⟩ := by
    unfold push_include
    rw [hexp]
    dsimp only
    rw [if_neg hdepth]
    cases hs : env.secureDir path
    case secure => exact absurd hs hsec
    all_goals rfl
  rw [hpush]
  have hwarn : env.warningsOn = false →
      insecureWarn env (env.secureDir path) = [] := by
    intro hw
    unfold insecureWarn
    rw [hw]
    rfl
  by_cases hg : st.idepth ≥ st.istacksize
  · refine ⟨rfl, by simp [hg], by simp [hg], by simp [hg], by simp [hg],
      by simp [hg], ?_, fun hw => hwarn hw⟩
    intro hne
    by_contra hw
    exact hne (hwarn (Bool.not_eq_true _ ▸ Bool.eq_false_iff.mpr hw))
  · refine ⟨rfl, by simp [hg], by simp [hg], by simp [hg], by simp [hg],
      by simp [hg], ?_, fun hw => hwarn hw⟩
    intro hne
    by_contra hw
    exact hne (hwarn (Bool.not_eq_true _ ▸ Bool.eq_false_iff.mpr hw))

/-- Witness for `c2_insecure_dir_skipped`: `@includedir /d` with a
group-writable directory and warnings disabled. -/
theorem c2_witness :
    (push_include envInsecure initStackSt [47, 100] true).ok = true ∧
    (push_include envInsecure initStackSt [47, 100] true).st.idepth =
      initStackSt.idepth ∧
    (push_include envInsecure initStackSt [47, 100] true).st.istack =
      initStackSt.istack ∧
    (push_include envInsecure initStackSt [47, 100] true).st.sudoers =
      initStackSt.sudoers ∧
    (push_include envInsecure initStackSt [47, 100] true).st.sudolineno =
      initStackSt.sudolineno ∧
    (push_include envInsecure initStackSt [47, 100] true).st.sudolinebuf =
      initStackSt.sudolinebuf ∧
    ((push_include envInsecure initStackSt [47, 100] true).warned ≠ [] →
      envInsecure.warningsOn = true) ∧
    (envInsecure.warningsOn = false →
      (push_include envInsecure initStackSt [47, 100] true).warned = []) :=
  c2_insecure_dir_skipped envInsecure initStackSt [47, 100] [47, 100]
    (by rfl) (by decide) (by decide)

/-- C3: for an include directory, the pending list built by `switch_dir`
(which is also the order in which the files are spliced into the token
stream: the push takes its head and every later pop takes the next head)
is the ascending `strcmp` sort of the matching files, independent of the
order in which readdir returned the entries: the entries are sorted in
descending order by `pl_compare` and pushed head-first, so repeated pops
yield ascending lexical order. -/
theorem c3_includedir_order (env1 env2 : IncEnv) (dirpath : List Nat)
    (files1 files2 : List (List Nat))
    (h1 : read_dir_files env1 dirpath = some files1)
    (h2 : read_dir_files env2 dirpath = some files2)
    (hperm : files1.Perm files2) :
    switch_dir env1 dirpath = some (List.insertionSort ascLe files1) ∧
    switch_dir env2 dirpath = some (List.insertionSort ascLe files1) ∧
    (List.insertionSort ascLe files1).Perm files1 ∧
    List.Sorted ascLe (List.insertionSort ascLe files1) := by
  have hsort : ∀ fs : List (List Nat),
      (List.insertionSort descLe fs).foldl (fun l p => p :: l) [] =
        List.insertionSort ascLe fs := by
    intro fs
    rw [foldl_headInsert, List.append_nil, revDescSort_eq_ascSort]
  have heq : List.insertionSort ascLe files2 = List.insertionSort ascLe files1 := by
    apply List.eq_of_perm_of_sorted (r := ascLe)
    · exact ((List.perm_insertionSort ascLe files2).trans hperm.symm).trans
        (List.perm_insertionSort ascLe files1).symm
    · exact List.sorted_insertionSort _ _
    · exact List.sorted_insertionSort _ _
  refine ⟨?_, ?_, List.perm_insertionSort _ _, List.sorted_insertionSort _ _⟩
  · unfold switch_dir
    rw [h1, Option.map_some', hsort]
  · unfold switch_dir
    rw [h2, Option.map_some', hsort, heq]

/-- Witness for `c3_includedir_order`: a directory holding files `a` and
`b`, listed by readdir in either order, is processed as `a` then `b`. -/
theorem c3_witness :
    switch_dir envDirBA [47, 100] =
      some (List.insertionSort ascLe [[47, 100, 47, 98], [47, 100, 47, 97]]) ∧
    switch_dir envDirAB [47, 100] =
      some (List.insertionSort ascLe [[47, 100, 47, 98], [47, 100, 47, 97]]) ∧
    (List.insertionSort ascLe [[47, 100, 47, 98], [47, 100, 47, 97]]).Perm
      [[47, 100, 47, 98], [47, 100, 47, 97]] ∧
    List.Sorted ascLe
      (List.insertionSort ascLe [[47, 100, 47, 98], [47, 100, 47, 97]]) :=
  c3_includedir_order envDirBA envDirAB [47, 100]
    [[47, 100, 47, 98], [47, 100, 47, 97]]
    [[47, 100, 47, 97], [47, 100, 47, 98]]
    rfl rfl (List.Perm.swap _ _ _)

/-- C4 counterexample: a run of 43 `a` characters after `sha256` IS a
run of base64 characters whose length equals the unpadded expected
length `ceil(4*32/3) = 43`, yet no DIGEST token results: every character
is also a hex digit, so the earlier hex rule wins the flex tie, and its
length test (43 = 64) fails; the action then consumes the whole run
(`sudoersless(sudoersleng)` keeps all 43 bytes consumed - nothing is
pushed back to be re-lexed) and produces no token at all. -/
theorem c4_counterexample :
    (List.replicate 43 97).all isB64B = true ∧
    b64ExpectedLen DigestType.sha256 (List.replicate 43 97) = 43 ∧
    wantdigestStep DigestType.sha256 (List.replicate 43 97) =
      ⟨none, 43, SCState.initial⟩ := by decide

/-- C4 amended: in WANTDIGEST, an all-hex run is a DIGEST exactly when
its length is twice the digest byte length, and a base64 run containing
a non-hex character is a DIGEST exactly when its length matches the
padded/unpadded base64 formula; in every mismatch case the whole run is
consumed with no token produced (it is not pushed back), and scanning
continues in INITIAL after it. -/
theorem c4_amended (dt : DigestType) (run : List Nat)
    (hne : run ≠ []) (hb64 : run.all isB64B = true) :
    (run.all (fun c => isXdigitB c) = true →
      ((wantdigestStep dt run).tok = some (Tok.digest run) ↔
        run.length = sudo_digest_getlen dt * 2) ∧
      (run.length ≠ sudo_digest_getlen dt * 2 →
        wantdigestStep dt run = ⟨none, run.length, SCState.initial⟩)) ∧
    (run.all (fun c => isXdigitB c) = false →
      ((wantdigestStep dt run).tok = some (Tok.digest run) ↔
        run.length = b64ExpectedLen dt run) ∧
      (run.length ≠ b64ExpectedLen dt run →
        wantdigestStep dt run = ⟨none, run.length, SCState.initial⟩)) := by
  constructor
  · intro hx
    unfold wantdigestStep wantdigestHexAction
    rw [if_pos hx]
    by_cases hl : run.length = sudo_digest_getlen dt * 2
    · rw [if_pos hl]
      simp [hl]
    · rw [if_neg hl]
      simp [hl]
  · intro hx
    unfold wantdigestStep wantdigestB64Action
    rw [if_neg (by simp [hx])]
    by_cases hl : run.length = b64ExpectedLen dt run
    · rw [if_pos hl]
      simp [hl]
    · rw [if_neg hl]
      simp [hl]

/-- Witness for `c4_amended`: a 64-character hex run after `sha256`
yields a DIGEST token. -/
theorem c4_witness :
    (wantdigestStep DigestType.sha256 (List.replicate 64 97)).tok =
      some (Tok.digest (List.replicate 64 97)) :=
  ((c4_amended DigestType.sha256 (List.replicate 64 97) (by decide)
    (by decide)).1 (by decide)).1.mpr (by decide)

/-- C5: the INSTR closing-quote action.  A NULL (never-filled) string is
the "empty string" error; when the saved previous state is INITIAL or
GOTDEFS, a string starting with `%` is USERGROUP unless it is exactly
`%` or `%:` (the "empty group" error), a string starting with `+` is
NETGROUP unless it is exactly `+` (the "empty netgroup" error), and any
other string - or any string closed in any other previous state - is a
plain WORD. -/
theorem c5_instr_close (prev : SCState) (str : List Nat) :
    endStrToken prev none = Tok.error "empty string" ∧
    ((prev = SCState.initial ∨ prev = SCState.gotdefs) →
      (str = [37] ∨ str = [37, 58] →
        endStrToken prev (some str) = Tok.error "empty group") ∧
      (str.head? = some 37 → str ≠ [37] → str ≠ [37, 58] →
        endStrToken prev (some str) = Tok.usergroup str) ∧
      (str = [43] → endStrToken prev (some str) = Tok.error "empty netgroup") ∧
      (str.head? = some 43 → str ≠ [43] →
        endStrToken prev (some str) = Tok.netgroup str) ∧
      (str.head? ≠ some 37 → str.head? ≠ some 43 →
        endStrToken prev (some str) = Tok.word str)) ∧
    (¬ (prev = SCState.initial ∨ prev = SCState.gotdefs) →
      endStrToken prev (some str) = Tok.word str) := by
  refine ⟨rfl, fun hp => ⟨?_, ?_, ?_, ?_, ?_⟩, fun hp => ?_⟩
  · rintro (rfl | rfl) <;> simp [endStrToken, hp]
  · intro h37 hne1 hne2
    cases str with
    | nil => simp at h37
    | cons c t =>
      simp only [List.head?_cons, Option.some.injEq] at h37
      subst h37
      have h1 : t ≠ [] := fun h => hne1 (by rw [h])
      have h2 : t ≠ [58] := fun h => hne2 (by rw [h])
      simp [endStrToken, hp, h1, h2]
  · rintro rfl
    simp [endStrToken, hp]
  · intro h43 hne1
    cases str with
    | nil => simp at h43
    | cons c t =>
      simp only [List.head?_cons, Option.some.injEq] at h43
      subst h43
      have h1 : t ≠ [] := fun h => hne1 (by rw [h])
      simp [endStrToken, hp, h1]
  · intro h37 h43
    simp [endStrToken, hp, h37, h43]
  · simp [endStrToken, hp]

/-- Witness for `c5_instr_close`: closing `"%w"` from INITIAL yields a
USERGROUP token. -/
theorem c5_witness :
    endStrToken SCState.initial (some [37, 119]) = Tok.usergroup [37, 119] :=
  ((c5_instr_close SCState.initial [37, 119]).2.1 (Or.inl rfl)).2.1
    rfl (by decide) (by decide)

/-- C6: an unescaped line break while the lexer is in the INSTR
quoted-string state (LF, or CR LF, at the scan position) is matched by
the `<*>\r?\n` rule, whose INSTR branch discards the accumulated string,
pushes the whole line break back (`sudoersless(0)`, consumed = 0),
switches to INITIAL (so the pushed-back line break and the next line
are lexed normally) and returns the "unexpected line break in string"
error.  A backslash before the line break instead matches the INSTR
line-continuation rule, which consumes it silently and bumps the line
counter - so only unescaped breaks error out. -/
theorem c6_instr_line_break (prev : SCState) (lval : Option (List Nat))
    (lineno : Nat) (continued : Bool) (rest : List Nat) :
    instrStep prev lval lineno continued (nlB :: rest) =
      ⟨some (Tok.error "unexpected line break in string"), 0,
        SCState.initial, none, lineno, continued⟩ ∧
    instrStep prev lval lineno continued (crB :: nlB :: rest) =
      ⟨some (Tok.error "unexpected line break in string"), 0,
        SCState.initial, none, lineno, continued⟩ ∧
    instrStep prev lval lineno continued (bsB :: nlB :: rest) =
      ⟨none, 2 + blanksLen rest, SCState.instr, lval, lineno + 1, true⟩ := by
  refine ⟨?_, ?_, ?_⟩
  · have h : pickRule (instrRules (nlB :: rest)) = some (InstrRule.nl, 1) := by
      simp [instrRules, pickRule, mContLen, mCharLen, bodyLen_cons_stop,
        mBangLen, mNlLen, blanksLen, mCont2Len, mDotLen, contTrail2Len, nlB,
        crB, dqB, bsB, isBlankB, List.takeWhile_cons]
    simp [instrStep, h]
  · have h : pickRule (instrRules (crB :: nlB :: rest)) =
        some (InstrRule.nl, 2) := by
      simp [instrRules, pickRule, mContLen, mCharLen, bodyLen_cons_stop,
        mBangLen, mNlLen, blanksLen, mCont2Len, mDotLen, contTrail2Len, nlB,
        crB, dqB, bsB, isBlankB, List.takeWhile_cons]
    simp [instrStep, h]
  · have h : pickRule (instrRules (bsB :: nlB :: rest)) =
        some (InstrRule.cont, 2 + blanksLen rest) := by
      have hbody : bodyLen (92 :: 10 :: rest) = 0 := by
        have hb := bodyLen_bs 10 rest
        rw [if_neg (by decide)] at hb
        exact hb
      have hlens : instrRules (bsB :: nlB :: rest) =
          [(InstrRule.cont, 2 + blanksLen rest), (InstrRule.quote, 0),
           (InstrRule.backslash, 1), (InstrRule.body, 0),
           (InstrRule.bang, 0), (InstrRule.nl, 0),
           (InstrRule.blank, 0), (InstrRule.cont2, 2),
           (InstrRule.dot, 1)] := by
        simp [instrRules, mContLen, mCharLen, hbody, mBangLen, mNlLen,
          blanksLen, mCont2Len, mDotLen, contTrail2Len, nlB, crB, dqB, bsB,
          isBlankB, List.takeWhile_cons]
      rw [hlens]
      unfold pickRule
      have hm : List.foldl Nat.max 0
          (([(InstrRule.cont, 2 + blanksLen rest), (InstrRule.quote, 0),
            (InstrRule.backslash, 1), (InstrRule.body, 0),
            (InstrRule.bang, 0), (InstrRule.nl, 0),
            (InstrRule.blank, 0), (InstrRule.cont2, 2),
            (InstrRule.dot, 1)]).map (fun r => r.2)) = 2 + blanksLen rest := by
        simp [List.foldl, List.map]
        omega
      rw [hm]
      rw [if_neg (by omega)]
      simp [List.find?]
    simp [instrStep, h]

/-- C7 counterexample: in GOTCMND, the input `x=y` followed by a
newline is matched whole by the argument-run rule `[^#\\:, \t\r\n]+`,
whose character class does NOT exclude `=`: the unescaped `=` does not
end the argument accumulation or get re-lexed in INITIAL - the three
bytes `x=y` are consumed and appended to the argument text, the state
stays GOTCMND and no COMMAND token is returned here. -/
theorem c7_counterexample :
    gotcmndStep none false 1 false [120, 61, 121, nlB] =
      ⟨none, 3, SCState.gotcmnd, some [120, 61, 121], false, 1, false⟩ := by
  decide

/-- C7 amended: in GOTCMND, a backslash-escaped glob metacharacter
(`* ? [ ] ! ^`) is appended verbatim, backslash included; a
backslash-escaped structural character (`: \ , = #`, and space/tab when
the escape is not part of a line continuation) is appended with the
backslash stripped; an unescaped `# : ,`, an LF, a CR not followed by
LF, or an `=` whose run would end right there, each end the argument
list: the whole match is pushed back (consumed = 0), the state becomes
INITIAL and COMMAND is returned.  A CR immediately followed by LF is
instead taken by the longer-matching `<*>\r?\n` rule, which consumes
both bytes and returns a newline token without emitting COMMAND; and an
unescaped `=` inside a longer run is simply accumulated (see the
counterexample). -/
theorem c7_gotcmnd_amended (args : Option (List Nat)) (sawspace : Bool)
    (lineno : Nat) (continued : Bool) (c : Nat) (rest : List Nat) :
    (isGlobMeta c = true →
      gotcmndStep args sawspace lineno continued (bsB :: c :: rest) =
        ⟨none, 2, SCState.gotcmnd, fill_args args [bsB, c] sawspace, false,
          lineno, continued⟩) ∧
    ((c = 58 ∨ c = 92 ∨ c = 44 ∨ c = 61 ∨ c = 35) →
      gotcmndStep args sawspace lineno continued (bsB :: c :: rest) =
        ⟨none, 2, SCState.gotcmnd, fill_args args [c] sawspace, false,
          lineno, continued⟩) ∧
    ((c = 32 ∨ c = 9) → contTrail2Len (c :: rest) = none →
      gotcmndStep args sawspace lineno continued (bsB :: c :: rest) =
        ⟨none, 2, SCState.gotcmnd, fill_args args [c] sawspace, false,
          lineno, continued⟩) ∧
    ((c = 35 ∨ c = 58 ∨ c = 44 ∨ c = 10 ∨ (c = 13 ∧ rest.head? ≠ some nlB) ∨
        (c = 61 ∧ headIsArgChar rest = false)) →
      gotcmndStep args sawspace lineno continued (c :: rest) =
        ⟨some Tok.command, 0, SCState.initial, args, sawspace, lineno,
          continued⟩) ∧
    gotcmndStep args sawspace lineno continued (crB :: nlB :: rest) =
      ⟨some Tok.newline, 2, SCState.initial, args, sawspace, lineno + 1,
        false⟩ := by
  refine ⟨?_, ?_, ?_, ?_, ?_⟩
  · intro hg
    simp only [isGlobMeta, Bool.or_eq_true, beq_iff_eq, or_assoc] at hg
    rcases hg with rfl | rfl | rfl | rfl | rfl | rfl <;>
      simp [gotcmndStep, cmndRules, pickRule, mEscLen, mClassLen, mArgLen,
        mBangLen, mNlLen, blanksLen, mCont2Len, mDotLen, contTrail2Len,
        isGlobMeta, isSpecEscChar, isCmndTerm, isArgChar, isBlankB, bsB, nlB,
        crB, List.takeWhile_cons, List.find?, List.foldl, fill_args]
  · intro hs
    rcases hs with rfl | rfl | rfl | rfl | rfl <;>
      simp [gotcmndStep, cmndRules, pickRule, mEscLen, mClassLen, mArgLen,
        mBangLen, mNlLen, blanksLen, mCont2Len, mDotLen, contTrail2Len,
        isGlobMeta, isSpecEscChar, isCmndTerm, isArgChar, isBlankB, bsB, nlB,
        crB, List.takeWhile_cons, List.find?, List.foldl, fill_args]
  · intro hs hcont
    rcases hs with rfl | rfl <;>
      simp [gotcmndStep, cmndRules, pickRule, mEscLen, mClassLen, mArgLen,
        mBangLen, mNlLen, blanksLen, mCont2Len, mDotLen, hcont,
        isGlobMeta, isSpecEscChar, isCmndTerm, isArgChar, isBlankB, bsB, nlB,
        crB, List.takeWhile_cons, List.find?, List.foldl, fill_args]
  · intro hs
    rcases hs with rfl | rfl | rfl | rfl | ⟨rfl, hcr⟩ | ⟨rfl, heq⟩
    · simp [gotcmndStep, cmndRules, pickRule, mEscLen, mClassLen, mArgLen,
        mBangLen, mNlLen, blanksLen, mCont2Len, mDotLen, contTrail2Len,
        isGlobMeta, isSpecEscChar, isCmndTerm, isArgChar, isBlankB, bsB, nlB,
        crB, List.takeWhile_cons, List.find?, List.foldl]
    · simp [gotcmndStep, cmndRules, pickRule, mEscLen, mClassLen, mArgLen,
        mBangLen, mNlLen, blanksLen, mCont2Len, mDotLen, contTrail2Len,
        isGlobMeta, isSpecEscChar, isCmndTerm, isArgChar, isBlankB, bsB, nlB,
        crB, List.takeWhile_cons, List.find?, List.foldl]
    · simp [gotcmndStep, cmndRules, pickRule, mEscLen, mClassLen, mArgLen,
        mBangLen, mNlLen, blanksLen, mCont2Len, mDotLen, contTrail2Len,
        isGlobMeta, isSpecEscChar, isCmndTerm, isArgChar, isBlankB, bsB, nlB,
        crB, List.takeWhile_cons, List.find?, List.foldl]
    · simp [gotcmndStep, cmndRules, pickRule, mEscLen, mClassLen, mArgLen,
        mBangLen, mNlLen, blanksLen, mCont2Len, mDotLen, contTrail2Len,
        isGlobMeta, isSpecEscChar, isCmndTerm, isArgChar, isBlankB, bsB, nlB,
        crB, List.takeWhile_cons, List.find?, List.foldl]
    · have hcr2 : ¬ (rest.head? = some 10) := hcr
      simp [gotcmndStep, cmndRules, pickRule, mEscLen, mClassLen, mArgLen,
        mBangLen, mNlLen, blanksLen, mCont2Len, mDotLen, contTrail2Len, hcr2,
        isGlobMeta, isSpecEscChar, isCmndTerm, isArgChar, isBlankB, bsB, nlB,
        crB, List.takeWhile_cons, List.find?, List.foldl]
    · have htw : rest.takeWhile isArgChar = [] := by
        cases rest with
        | nil => rfl
        | cons d t =>
          simp only [headIsArgChar, List.head?_cons] at heq
          simp [List.takeWhile_cons, heq]
      simp [gotcmndStep, cmndRules, pickRule, mEscLen, mClassLen, mArgLen,
        mBangLen, mNlLen, blanksLen, mCont2Len, mDotLen, contTrail2Len, htw,
        isGlobMeta, isSpecEscChar, isCmndTerm, isArgChar, isBlankB, bsB, nlB,
        crB, List.takeWhile_cons, List.find?, List.foldl]
  · simp [gotcmndStep, cmndRules, pickRule, mEscLen, mClassLen, mArgLen,
      mBangLen, mNlLen, blanksLen, mCont2Len, mDotLen, contTrail2Len,
      isGlobMeta, isSpecEscChar, isCmndTerm, isArgChar, isBlankB, bsB, nlB,
      crB, List.takeWhile_cons, List.find?, List.foldl]

/-- Witness for `c7_gotcmnd_amended`: the escaped glob character `\*`
at the head of GOTCMND input is appended verbatim. -/
theorem c7_witness :
    gotcmndStep none false 1 false (bsB :: 42 :: [nlB]) =
      ⟨none, 2, SCState.gotcmnd, fill_args none [bsB, 42] false, false, 1,
        false⟩ :=
  (c7_gotcmnd_amended none false 1 false 42 [nlB]).1 (by decide)

/-- C8: after every refill performed by `sudoers_input`, the line buffer
ends in a newline and contains no embedded NUL: an embedded NUL truncates
the line with a newline substituted, and a missing trailing newline is
appended. -/
theorem c8_refill_invariants (line : List Nat) :
    (sudoersRefill line).getLast? = some nlB ∧ 0 ∉ sudoersRefill line := by
  have hcore : ∀ l : List Nat, 0 ∉ l →
      (if l.getLast? = some nlB then l else l ++ [nlB]).getLast? = some nlB ∧
      0 ∉ (if l.getLast? = some nlB then l else l ++ [nlB]) := by
    intro l hl
    by_cases h : l.getLast? = some nlB
    · rw [if_pos h]
      exact ⟨h, hl⟩
    · rw [if_neg h]
      refine ⟨List.getLast?_concat _, ?_⟩
      intro hm
      rcases List.mem_append.mp hm with hm | hm
      · exact hl hm
      · simp [nlB] at hm
  simp only [sudoersRefill]
  by_cases h0 : line.contains 0 = true
  · rw [if_pos h0]
    apply hcore
    intro hm
    rcases List.mem_append.mp hm with hm | hm
    · have hp := List.mem_takeWhile_imp hm
      simp at hp
    · simp [nlB] at hm
  · rw [if_neg h0]
    apply hcore
    intro hm
    exact h0 (by simpa [List.contains, List.elem_iff] using hm)

/-- C9 counterexample: a `#` comment is recognized even when NOT at
line start.  With the beginning-of-line flag false (so the anchored
`^#include`/`^#includedir` rules cannot apply at all), the input `#x`
followed by a newline is still consumed through the end of the line by
the comment rule - which has no `^` anchor - and returned as a newline
token, contradicting "a '#' elsewhere ... is not treated as a
comment". -/
theorem c9_counterexample :
    initialHashStep false false false 1 [35, 120, nlB] =
      ⟨some Tok.newline, 3, SCState.initial, 2, false⟩ := by decide

/-- C9 amended: a `#` that is not followed by an optional `-` and a
digit begins a comment regardless of position (the rule is not anchored
to line start; only the `^#include`/`^#includedir` directive rules,
which apply at line start, outrank it there), consuming through the end
of the line and returning a newline token; a `#` followed by an
optional `-` and a digit is lexed as a numeric uid/gid WORD instead;
and at line start `#include` followed by a blank is the INCLUDE
directive, consuming only the directive word. -/
theorem c9_hash_amended (bol eof continued : Bool) (lineno : Nat)
    (c : Nat) (rest : List Nat) :
    (¬ (48 ≤ c ∧ c ≤ 57) → ¬ c = 45 → ¬ c = 13 → ¬ c = 10 →
      inclLen bol (35 :: c :: rest) = 0 →
      incldirLen bol (35 :: c :: rest) = 0 →
      nlB ∈ c :: rest →
      initialHashStep bol eof continued lineno (35 :: c :: rest) =
        ⟨some Tok.newline, 1 + toEolLen (c :: rest), SCState.initial,
          lineno + 1, false⟩) ∧
    ((48 ≤ c ∧ c ≤ 57) →
      initialHashStep bol eof continued lineno (35 :: c :: rest) =
        ⟨some (Tok.word ((35 :: c :: rest).take (2 + digitsLen rest))),
          2 + digitsLen rest, SCState.initial, lineno, continued⟩) ∧
    ((48 ≤ c ∧ c ≤ 57) →
      initialHashStep bol eof continued lineno (35 :: 45 :: c :: rest) =
        ⟨some (Tok.word ((35 :: 45 :: c :: rest).take (3 + digitsLen rest))),
          3 + digitsLen rest, SCState.initial, lineno, continued⟩) ∧
    (∀ b : Nat, isBlankB b = true →
      initialHashStep true eof false lineno
          (35 :: 105 :: 110 :: 99 :: 108 :: 117 :: 100 :: 101 :: b :: rest) =
        ⟨some Tok.includeTok, 8, SCState.gotinc, lineno, false⟩) := by
  refine ⟨?_, ?_, ?_, ?_⟩
  · intro hdig h45 h13 h10 hincl hincldir hnl
    have hT : 1 ≤ toEolLen (c :: rest) := toEolLen_pos _ (by simp)
    have hd2 : (decide (48 ≤ c) && decide (c ≤ 57)) = false := by
      rcases Nat.lt_or_ge c 48 with h | h
      · simp [Nat.not_le.mpr h]
      · have h57 : ¬ c ≤ 57 := fun hle => hdig ⟨h, hle⟩
        simp [h57]
    have hcomment : commentLen (35 :: c :: rest) = 1 + toEolLen (c :: rest) := by
      simp [commentLen, List.head?_cons, crB, nlB, h13, h10, h45, hd2]
    have hid : idLen (35 :: c :: rest) = 0 := by
      simp [idLen, digitsLen, List.takeWhile_cons, hd2, h45]
    have hpick : pickRule (hashRules bol (35 :: c :: rest)) =
        some (HashRule.comment, 1 + toEolLen (c :: rest)) := by
      have hlens : hashRules bol (35 :: c :: rest) =
          [(HashRule.incl, 0), (HashRule.incldir, 0), (HashRule.idWord, 0),
           (HashRule.comment, 1 + toEolLen (c :: rest)), (HashRule.dot, 1)] := by
        simp [hashRules, hincl, hincldir, hid, hcomment, mDotLen, nlB]
      rw [hlens]
      unfold pickRule
      have hm : List.foldl Nat.max 0
          (([(HashRule.incl, 0), (HashRule.incldir, 0), (HashRule.idWord, 0),
            (HashRule.comment, 1 + toEolLen (c :: rest)),
            (HashRule.dot, 1)]).map (fun r => r.2)) =
          1 + toEolLen (c :: rest) := by
        simp [List.foldl, List.map]
      rw [hm, if_neg (by omega)]
      have h0 : (0 == 1 + toEolLen (c :: rest)) = false := by
        rw [beq_eq_false_iff_ne]
        omega
      simp [List.find?, h0]
    have htake : ((35 :: c :: rest).take (1 + toEolLen (c :: rest))).getLast? =
        some nlB := by
      rw [Nat.add_comm, List.take_succ_cons, take_toEolLen _ hnl,
        ← List.cons_append]
      exact List.getLast?_concat _
    simp [initialHashStep, hpick, htake]
  · intro hdig
    have h13' : ¬ c = 13 := by omega
    have h10' : ¬ c = 10 := by omega
    have h45' : ¬ c = 45 := by omega
    have hd2 : (decide (48 ≤ c) && decide (c ≤ 57)) = true := by
      simp only [Bool.and_eq_true, decide_eq_true_eq]
      exact hdig
    have hincl : inclLen bol (35 :: c :: rest) = 0 := by
      unfold inclLen
      rw [if_neg]
      rintro ⟨-, htake, -⟩
      simp [inclWord] at htake
      omega
    have hincldir : incldirLen bol (35 :: c :: rest) = 0 := by
      unfold incldirLen
      rw [if_neg]
      rintro ⟨-, htake, -⟩
      simp [incldirWord] at htake
      omega
    have hdigits : digitsLen (c :: rest) = 1 + digitsLen rest := by
      simp [digitsLen, List.takeWhile_cons, hd2, Nat.add_comm]
    have hid : idLen (35 :: c :: rest) = 2 + digitsLen rest := by
      simp [idLen, h45', hdigits]
      omega
    have hcomment : commentLen (35 :: c :: rest) = 1 := by
      simp [commentLen, mNlLen, hd2, h10', h13', h45', crB, nlB]
    have hpick : pickRule (hashRules bol (35 :: c :: rest)) =
        some (HashRule.idWord, 2 + digitsLen rest) := by
      have hlens : hashRules bol (35 :: c :: rest) =
          [(HashRule.incl, 0), (HashRule.incldir, 0),
           (HashRule.idWord, 2 + digitsLen rest), (HashRule.comment, 1),
           (HashRule.dot, 1)] := by
        simp [hashRules, hincl, hincldir, hid, hcomment, mDotLen, nlB]
      rw [hlens]
      unfold pickRule
      have hm : List.foldl Nat.max 0
          (([(HashRule.incl, 0), (HashRule.incldir, 0),
            (HashRule.idWord, 2 + digitsLen rest), (HashRule.comment, 1),
            (HashRule.dot, 1)]).map (fun r => r.2)) = 2 + digitsLen rest := by
        simp [List.foldl, List.map]
        omega
      rw [hm, if_neg (by omega)]
      have h0 : (0 == 2 + digitsLen rest) = false := by
        rw [beq_eq_false_iff_ne]
        omega
      have h1 : (1 == 2 + digitsLen rest) = false := by
        rw [beq_eq_false_iff_ne]
        omega
      simp [List.find?, h0, h1]
    simp [initialHashStep, hpick]
  · intro hdig
    have hd2 : (decide (48 ≤ c) && decide (c ≤ 57)) = true := by
      simp only [Bool.and_eq_true, decide_eq_true_eq]
      exact hdig
    have hincl : inclLen bol (35 :: 45 :: c :: rest) = 0 := by
      unfold inclLen
      rw [if_neg]
      rintro ⟨-, htake, -⟩
      simp [inclWord] at htake
    have hincldir : incldirLen bol (35 :: 45 :: c :: rest) = 0 := by
      unfold incldirLen
      rw [if_neg]
      rintro ⟨-, htake, -⟩
      simp [incldirWord] at htake
    have hdigits : digitsLen (c :: rest) = 1 + digitsLen rest := by
      simp [digitsLen, List.takeWhile_cons, hd2, Nat.add_comm]
    have hid : idLen (35 :: 45 :: c :: rest) = 3 + digitsLen rest := by
      simp [idLen, hdigits]
      omega
    have hcomment : commentLen (35 :: 45 :: c :: rest) = 1 := by
      simp [commentLen, mNlLen, hd2, crB, nlB]
    have hpick : pickRule (hashRules bol (35 :: 45 :: c :: rest)) =
        some (HashRule.idWord, 3 + digitsLen rest) := by
      have hlens : hashRules bol (35 :: 45 :: c :: rest) =
          [(HashRule.incl, 0), (HashRule.incldir, 0),
           (HashRule.idWord, 3 + digitsLen rest), (HashRule.comment, 1),
           (HashRule.dot, 1)] := by
        simp [hashRules, hincl, hincldir, hid, hcomment, mDotLen, nlB]
      rw [hlens]
      unfold pickRule
      have hm : List.foldl Nat.max 0
          (([(HashRule.incl, 0), (HashRule.incldir, 0),
            (HashRule.idWord, 3 + digitsLen rest), (HashRule.comment, 1),
            (HashRule.dot, 1)]).map (fun r => r.2)) = 3 + digitsLen rest := by
        simp [List.foldl, List.map]
        omega
      rw [hm, if_neg (by omega)]
      have h0 : (0 == 3 + digitsLen rest) = false := by
        rw [beq_eq_false_iff_ne]
        omega
      have h1 : (1 == 3 + digitsLen rest) = false := by
        rw [beq_eq_false_iff_ne]
        omega
      simp [List.find?, h0, h1]
    simp [initialHashStep, hpick]
  · intro b hb
    have hb' : b = 32 ∨ b = 9 := by
      by_cases h : b = 32
      · exact Or.inl h
      · right
        simp [isBlankB, h] at hb
        exact hb
    have hne : (35 :: 105 :: 110 :: 99 :: 108 :: 117 :: 100 :: 101 :: b ::
        rest) ≠ [] := by simp
    have hT := toEolLen_pos _ hne
    have hincl : inclLen true
        (35 :: 105 :: 110 :: 99 :: 108 :: 117 :: 100 :: 101 :: b :: rest) =
        toEolLen (35 :: 105 :: 110 :: 99 :: 108 :: 117 :: 100 :: 101 :: b ::
          rest) := by
      unfold inclLen
      rw [if_pos]
      refine ⟨rfl, by simp [inclWord], ?_⟩
      simp [headIsBlank, hb]
    have hincldir : incldirLen true
        (35 :: 105 :: 110 :: 99 :: 108 :: 117 :: 100 :: 101 :: b :: rest) =
        0 := by
      unfold incldirLen
      rw [if_neg]
      rintro ⟨-, htake, -⟩
      rcases hb' with rfl | rfl <;> simp [incldirWord] at htake
    have hid : idLen
        (35 :: 105 :: 110 :: 99 :: 108 :: 117 :: 100 :: 101 :: b :: rest) =
        0 := by
      simp [idLen, digitsLen, List.takeWhile_cons]
    have hcomment : commentLen
        (35 :: 105 :: 110 :: 99 :: 108 :: 117 :: 100 :: 101 :: b :: rest) =
        toEolLen (35 :: 105 :: 110 :: 99 :: 108 :: 117 :: 100 :: 101 :: b ::
          rest) := by
      rw [toEolLen_cons _ _ (by decide)]
      simp [commentLen, crB, nlB]
    have hpick : pickRule (hashRules true
        (35 :: 105 :: 110 :: 99 :: 108 :: 117 :: 100 :: 101 :: b :: rest)) =
        some (HashRule.incl, toEolLen (35 :: 105 :: 110 :: 99 :: 108 :: 117 ::
          100 :: 101 :: b :: rest)) := by
      have hlens : hashRules true
          (35 :: 105 :: 110 :: 99 :: 108 :: 117 :: 100 :: 101 :: b :: rest) =
          [(HashRule.incl, toEolLen (35 :: 105 :: 110 :: 99 :: 108 :: 117 ::
             100 :: 101 :: b :: rest)), (HashRule.incldir, 0),
           (HashRule.idWord, 0),
           (HashRule.comment, toEolLen (35 :: 105 :: 110 :: 99 :: 108 :: 117 ::
             100 :: 101 :: b :: rest)), (HashRule.dot, 1)] := by
        simp [hashRules, hincl, hincldir, hid, hcomment, mDotLen, nlB]
      rw [hlens]
      unfold pickRule
      have hm : List.foldl Nat.max 0
          (([(HashRule.incl, toEolLen (35 :: 105 :: 110 :: 99 :: 108 :: 117 ::
             100 :: 101 :: b :: rest)), (HashRule.incldir, 0),
            (HashRule.idWord, 0),
            (HashRule.comment, toEolLen (35 :: 105 :: 110 :: 99 :: 108 ::
              117 :: 100 :: 101 :: b :: rest)),
            (HashRule.dot, 1)]).map (fun r => r.2)) =
          toEolLen (35 :: 105 :: 110 :: 99 :: 108 :: 117 :: 100 :: 101 :: b ::
            rest) := by
        simp [List.foldl, List.map]
        omega
      rw [hm, if_neg (by omega)]
      simp [List.find?]
    simp [initialHashStep, hpick]

/-- Witness for `c9_hash_amended`: the mid-line comment `#y` + newline
with the beginning-of-line flag false. -/
theorem c9_witness :
    initialHashStep false false false 7 [35, 121, nlB] =
      ⟨some Tok.newline, 1 + toEolLen [121, nlB], SCState.initial, 8,
        false⟩ :=
  (c9_hash_amended false false false 7 121 [nlB]).1 (by decide) (by decide)
    (by decide) (by decide) (by decide) (by decide) (by decide)

/-- C10: an include directive whose path is empty, or becomes empty after
stripping a surrounding pair of double quotes, fails: `expand_include`
returns NULL, `push_include` returns false, and the include stack and
current source are left entirely unchanged (no frame pushed, no file
opened, nothing printed). -/
theorem c10_empty_include_path (env : IncEnv) (st : LexStackSt)
    (opath : List Nat) (isdir : Bool)
    (h : opath = [] ∨ opath = [dqB, dqB]) :
    expand_include st.sudoers env.shost opath = none ∧
    push_include env st opath isdir = ⟨false, st, []⟩ := by
  have hexp : expand_include st.sudoers env.shost opath = none := by
    rcases h with h | h <;> subst h <;> rfl
  exact ⟨hexp, by simp [push_include, hexp]⟩

/-- Witness for `c10_empty_include_path`: the quoted empty path at a
fresh lexer state. -/
theorem c10_witness :
    expand_include initStackSt.sudoers envAllOpen.shost [dqB, dqB] = none ∧
    push_include envAllOpen initStackSt [dqB, dqB] true =
      ⟨false, initStackSt, []⟩ :=
  c10_empty_include_path envAllOpen initStackSt [dqB, dqB] true (Or.inr rfl)
